import Mathlib

/-!
# Verification of `card_extractor` (src/card_extractor/main.py)

A shallow embedding of the PDF image extractor's core logic:

* `parsePages`   — `parse_pages` (page-selector parsing),
* `detect`       — `detect_and_extract_image_regions` (contour pipeline),
* `reserve`      — the collision-suffix filename loop,
* `processNative`, `processPage`, `processPdf`, `processDirectory`
                 — the per-page / per-document orchestration.

Python strings are modelled as `List Char` (`PyStr`).  External
collaborators (PyMuPDF, OpenCV, PIL) appear as abstract inputs: a page's
`get_images` list, the result of `doc.extract_image`, and the contour
list produced by the OpenCV pipeline on the rendered page.  OpenCV's
`contourArea` returns half-integral values for pixel polygons, so it is
kept as a doubled integer (`area2` = twice the enclosed area) to stay
exact.  Floating-point comparisons in the source (`area > page*0.9`,
`int(w*0.05)`) are modelled by their exact rational meaning.
-/

/-- Python strings, modelled as lists of characters. -/
abbrev PyStr : Type := List Char

/-! ## Decimal rendering: model of Python `str(n)` for a nonnegative int -/

/-- The decimal digit characters, model of what `str` emits per digit. -/
def toCh : Nat → Char
  | 0 => '0' | 1 => '1' | 2 => '2' | 3 => '3' | 4 => '4'
  | 5 => '5' | 6 => '6' | 7 => '7' | 8 => '8' | _ => '9'

/-- Numeric value of a digit character. -/
def chVal (c : Char) : Nat := c.toNat - 48

/-- Fuel-based most-significant-first decimal digits of `n`
(`fuel ≥ n` suffices). -/
def decChars (fuel n : Nat) : List Char :=
  match fuel with
  | 0 => []
  | f+1 => if n < 10 then [toCh n] else decChars f (n / 10) ++ [toCh (n % 10)]

/-- Model of Python `str(n)` for a natural number. -/
def decStr (n : Nat) : PyStr := decChars (n + 1) n

/-- Reading the rendered digits back, most significant first. -/
def listVal (l : List Char) : Nat := l.foldl (fun a c => 10 * a + chVal c) 0

theorem chVal_toCh {d : Nat} (h : d < 10) : chVal (toCh d) = d := by
  interval_cases d <;> rfl

theorem listVal_append_singleton (l : List Char) (c : Char) :
    listVal (l ++ [c]) = 10 * listVal l + chVal c := by
  simp [listVal, List.foldl_append]

theorem decChars_succ (f n : Nat) :
    decChars (f + 1) n = if n < 10 then [toCh n] else decChars f (n / 10) ++ [toCh (n % 10)] :=
  rfl

theorem listVal_decChars : ∀ fuel n, n ≤ fuel → listVal (decChars (fuel + 1) n) = n := by
  intro fuel
  induction fuel with
  | zero =>
      intro n hn
      interval_cases n
      simp [decChars, listVal, chVal, toCh]
  | succ f ih =>
      intro n hn
      by_cases h : n < 10
      · simp [decChars_succ, h, listVal, chVal_toCh h]
      · have hlt : n / 10 < n := Nat.div_lt_self (by omega) (by omega)
        have ihd := ih (n / 10) (by omega)
        rw [decChars_succ, if_neg h, listVal_append_singleton, ihd,
          chVal_toCh (Nat.mod_lt n (by omega))]
        omega

theorem listVal_decStr (n : Nat) : listVal (decStr n) = n :=
  listVal_decChars n n (le_refl n)

theorem decStr_injective : Function.Injective decStr := by
  intro a b h
  have ha := listVal_decStr a
  have hb := listVal_decStr b
  rw [h] at ha
  omega

theorem decChars_ne_nil : ∀ fuel n, decChars (fuel + 1) n ≠ [] := by
  intro fuel n
  by_cases h : n < 10 <;> simp [decChars, h]

theorem decStr_ne_nil (n : Nat) : decStr n ≠ [] := decChars_ne_nil n n

/-! ## `os.path.splitext` and the collision-suffix loop (OutputNamer)

Source: `main.py` lines 287-294 (and the identical loops at 338-344,
364-370): starting from the base filename, append `_1`, `_2`, ... before
the extension, re-checking `os.path.exists` after each increment.  The
output directory is modelled as the list of filenames it contains; paths
are compared by filename since all candidates share the same folder. -/

/-- Index of the last `'.'` in a filename, if any. -/
def lastDotIdx (p : PyStr) : Option Nat :=
  match p.reverse.findIdx? (· = '.') with
  | some j => some (p.length - 1 - j)
  | none => none

/-- Model of `os.path.splitext` for a bare filename (no path separators):
split at the last dot unless every character before it is a dot. -/
def pySplitext (p : PyStr) : PyStr × PyStr :=
  match lastDotIdx p with
  | none => (p, [])
  | some i => if (p.take i).all (· = '.') then (p, []) else (p.take i, p.drop i)

theorem pySplitext_append (p : PyStr) : (pySplitext p).1 ++ (pySplitext p).2 = p := by
  unfold pySplitext
  cases h : lastDotIdx p with
  | none => simp
  | some i =>
      by_cases hd : (p.take i).all (· = '.') <;> simp [hd]

/-- The candidate filename for collision counter `m`:
`root_m` ++ extension (`f"{root}_{m}{ext}"`). -/
def suffixName (root ext : PyStr) (m : Nat) : PyStr := root ++ '_' :: (decStr m ++ ext)

theorem suffixName_injective (root ext : PyStr) {m n : Nat}
    (h : suffixName root ext m = suffixName root ext n) : m = n := by
  unfold suffixName at h
  have h1 := List.append_cancel_left h
  have h2 : decStr m ++ ext = decStr n ++ ext := by
    injection h1
  exact decStr_injective (List.append_cancel_right h2)

theorem suffixName_ne_base (root ext : PyStr) (m : Nat) :
    suffixName root ext m ≠ root ++ ext := by
  intro h
  have := congrArg List.length h
  simp [suffixName] at this
  have := decStr_ne_nil m
  have : decStr m ≠ [] := this
  have hlen : (decStr m).length ≠ 0 := fun h0 => this (List.length_eq_zero.mp h0)
  omega

/-- One step of the `while os.path.exists(output_path)` loop, with fuel.
`counter` is the next suffix to try, `current` the candidate being
checked.  With enough fuel the fuel-exhausted branch is unreachable. -/
def reserveAux (dir : List PyStr) (root ext : PyStr) : Nat → Nat → PyStr → PyStr
  | _, 0, current => current
  | counter, f+1, current =>
      if current ∈ dir then reserveAux dir root ext (counter + 1) f (suffixName root ext counter)
      else current

/-- Model of the collision-avoiding naming scheme: return the base name
if free, else the first free `root_counter.ext`.  Fuel `dir.length + 1`
is enough (proved below). -/
def reserve (dir : List PyStr) (base : PyStr) : PyStr :=
  let r := pySplitext base
  reserveAux dir r.1 r.2 1 (dir.length + 1) base

theorem reserveAux_not_mem (dir : List PyStr) (root ext : PyStr) :
    ∀ fuel counter current,
      (current ∉ dir ∨ ∃ j, j < fuel ∧ suffixName root ext (counter + j) ∉ dir) →
      reserveAux dir root ext counter fuel current ∉ dir := by
  intro fuel
  induction fuel with
  | zero =>
      intro counter current h
      rcases h with h | ⟨j, hj, _⟩
      · exact h
      · omega
  | succ f ih =>
      intro counter current h
      by_cases hc : current ∈ dir
      · have hex : ∃ j, j < f + 1 ∧ suffixName root ext (counter + j) ∉ dir := by
          rcases h with h | h
          · exact absurd hc h
          · exact h
        rcases hex with ⟨j, hj, hfree⟩
        simp only [reserveAux, if_pos hc]
        apply ih
        match j, hj, hfree with
        | 0, _, hfree => exact Or.inl (by simpa using hfree)
        | j+1, hj, hfree =>
            exact Or.inr ⟨j, by omega, by
              have : counter + (j + 1) = counter + 1 + j := by omega
              rwa [this] at hfree⟩
      · simpa [reserveAux, if_neg hc] using hc

/-- Pigeonhole: among `base` and the first `dir.length` suffix
candidates, not all can already exist in `dir`. -/
theorem exists_free_candidate (dir : List PyStr) (root ext : PyStr) :
    (root ++ ext) ∉ dir ∨ ∃ j, j < dir.length + 1 ∧ suffixName root ext (1 + j) ∉ dir := by
  by_contra hcon
  push_neg at hcon
  obtain ⟨hbase, hsuf⟩ := hcon
  set L := dir.length with hL
  set C : List PyStr := (root ++ ext) :: (List.range (L + 1)).map (fun j => suffixName root ext (1 + j)) with hC
  have hnodup : C.Nodup := by
    constructor
    · intro x hx
      simp only [List.mem_map, List.mem_range] at hx
      obtain ⟨j, _, hj⟩ := hx
      intro hx
      exact suffixName_ne_base root ext (1 + j) (by rw [hj, hx])
    · apply List.Nodup.map
      · intro a b hab
        have := suffixName_injective root ext hab
        omega
      · exact List.nodup_range _
  have hsub : C ⊆ dir := by
    intro x hx
    simp only [hC, List.mem_cons, List.mem_map, List.mem_range] at hx
    rcases hx with rfl | ⟨j, hj, rfl⟩
    · exact hbase
    · exact hsuf j hj
  have h1 : C.toFinset.card = C.length := List.toFinset_card_of_nodup hnodup
  have h2 : C.toFinset ⊆ dir.toFinset := by
    intro x hx
    rw [List.mem_toFinset] at hx ⊢
    exact hsub hx
  have h3 : C.toFinset.card ≤ dir.toFinset.card := Finset.card_le_card h2
  have h4 : dir.toFinset.card ≤ dir.length := dir.toFinset_card_le
  have h5 : C.length = L + 2 := by simp [hC]
  omega

/-- The name returned by `reserve` never exists in the directory at call
time: the fuel bound is sufficient. -/
theorem reserve_not_mem (dir : List PyStr) (base : PyStr) : reserve dir base ∉ dir := by
  unfold reserve
  apply reserveAux_not_mem
  rcases exists_free_candidate dir (pySplitext base).1 (pySplitext base).2 with h | ⟨j, hj, h⟩
  · rw [pySplitext_append] at h
    exact Or.inl h
  · exact Or.inr ⟨j, hj, h⟩

/-- If the base name is free it is returned unchanged. -/
theorem reserve_of_not_mem (dir : List PyStr) (base : PyStr) (h : base ∉ dir) :
    reserve dir base = base := by
  unfold reserve reserveAux
  simp [h]

/-! ## Region detection (`detect_and_extract_image_regions`)

Source: `main.py` lines 113-183.  The OpenCV pipeline up to
`findContours` (blur, Canny, dilate) is the collaborator boundary: its
output is an abstract list of contours, each carrying its enclosed area
(`cv2.contourArea`) and bounding rectangle (`cv2.boundingRect`).
`contourArea` of a pixel polygon is a half-integer, stored doubled
(`area2` = twice the area) so all arithmetic stays in `Nat`; every
comparison below is the exact doubling of the source's comparison.
`int(w * 0.05)` is modelled as `w * 5 / 100` (floor), and the float test
`region_area > page_area * 0.9` as `10 * region_area > 9 * page_area`. -/

structure Contour where
  area2 : Nat
  x : Nat
  y : Nat
  w : Nat
  h : Nat
deriving DecidableEq, Repr

/-- A returned region: the source contour plus the margin-expanded,
clamped rectangle cropped from the page. -/
structure Region where
  contour : Contour
  x1 : Nat
  y1 : Nat
  x2 : Nat
  y2 : Nat
deriving DecidableEq, Repr

/-- Bounding rectangle plus 5% margin, clamped to the bitmap
(lines 159-170; `max(0, x - margin)` is `Nat` truncated subtraction). -/
def mkRegion (width height : Nat) (c : Contour) : Region :=
  let mx := c.w * 5 / 100
  let my := c.h * 5 / 100
  { contour := c
    x1 := c.x - mx
    y1 := c.y - my
    x2 := min width (c.x + c.w + mx)
    y2 := min height (c.y + c.h + my) }

/-- `(x2 - x1) * (y2 - y1)` of line 176. -/
def Region.rarea (r : Region) : Nat := (r.x2 - r.x1) * (r.y2 - r.y1)

/-- Model of `detect_and_extract_image_regions`: filter contours with
area > `minArea`, sort by area descending, expand/clamp each bounding
rectangle, and drop rectangles that are too small or cover more than 90%
of the page (lines 150-181).  The sort is modelled by insertion sort;
the source uses Python's stable sort, which agrees except possibly on
the relative order of equal-area contours (no claim depends on ties). -/
def detect (width height minArea : Nat) (contours : List Contour) : List Region :=
  let significant := contours.filter (fun c => decide (2 * minArea < c.area2))
  let sorted := List.insertionSort (fun a b => b.area2 ≤ a.area2) significant
  (sorted.map (mkRegion width height)).filter
    (fun r => decide (¬(r.rarea < minArea ∨ 9 * (width * height) < 10 * r.rarea)))

/-! ## Output filename construction

`f"{source_doc_name}-page-{page_num}-image-{img_count}.{ext}"`
(lines 284, 335, 361). -/

def imgBase (stem : PyStr) (pageNum ord : Nat) (ext : PyStr) : PyStr :=
  stem ++ "-page-".toList ++ decStr pageNum ++ "-image-".toList ++ decStr ord ++ '.' :: ext

theorem imgBase_ord_injective (stem : PyStr) (pageNum : Nat) (ext : PyStr) {i j : Nat}
    (h : imgBase stem pageNum i ext = imgBase stem pageNum j ext) : i = j := by
  simp only [imgBase, List.append_assoc] at h
  have h1 := List.append_cancel_left h
  have h2 := List.append_cancel_left h1
  have h3 := List.append_cancel_left h2
  have h4 := List.append_cancel_left h3
  exact decStr_injective (List.append_cancel_right h4)

/-! ## Render fallback: saving detected regions (lines 353-377)

Each detected region is saved in returned order, the 1-based index
`i + 1` being the filename ordinal; each name goes through the collision
loop against the current directory and the write adds it to the
directory.  Only the number of regions affects the produced names, so
the loop is indexed by the remaining count. -/

def saveLoop (stem : PyStr) (pageNum : Nat) (fmt : PyStr) :
    List PyStr → Nat → Nat → List PyStr × List PyStr
  | dir, _, 0 => ([], dir)
  | dir, ord, n+1 =>
      let p := reserve dir (imgBase stem pageNum ord fmt)
      let r := saveLoop stem pageNum fmt (p :: dir) (ord + 1) n
      (p :: r.1, r.2)

/-- If every base name the loop will use is absent from the directory,
the written files are exactly `image-(ord)`, `image-(ord+1)`, ... with no
collision suffixes. -/
theorem saveLoop_fresh (stem : PyStr) (pageNum : Nat) (fmt : PyStr) :
    ∀ n ord dir, (∀ j, j < n → imgBase stem pageNum (ord + j) fmt ∉ dir) →
      (saveLoop stem pageNum fmt dir ord n).1 =
        (List.range n).map (fun j => imgBase stem pageNum (ord + j) fmt) := by
  intro n
  induction n with
  | zero => intro ord dir _; rfl
  | succ m ih =>
      intro ord dir hfree
      have h0 : imgBase stem pageNum ord fmt ∉ dir := by
        have := hfree 0 (by omega)
        simpa using this
      have hres : reserve dir (imgBase stem pageNum ord fmt) = imgBase stem pageNum ord fmt :=
        reserve_of_not_mem dir _ h0
      have hrec := ih (ord + 1) (imgBase stem pageNum ord fmt :: dir) (by
        intro j hj
        have hne : imgBase stem pageNum (ord + 1 + j) fmt ≠ imgBase stem pageNum ord fmt := by
          intro he
          have := imgBase_ord_injective stem pageNum fmt he
          omega
        have hnd : imgBase stem pageNum (ord + 1 + j) fmt ∉ dir := by
          have := hfree (j + 1) (by omega)
          have harith : ord + (j + 1) = ord + 1 + j := by omega
          rwa [harith] at this
        simp [hne, hnd])
      simp only [saveLoop, hres, hrec, List.range_succ_eq_map, List.map_cons, List.map_map]
      refine List.cons_eq_cons.mpr ⟨by rw [Nat.add_zero], ?_⟩
      apply List.map_congr_left
      intro a _
      simp only [Function.comp_apply, Nat.succ_eq_add_one]
      have harith : ord + 1 + a = ord + (a + 1) := by omega
      rw [harith]

/-! ## Native embedded-image path (lines 252-307)

`page.get_images(full=True)` yields tuples whose first element is the
`xref`; the remaining entries (smask, dims, colourspace, name, filter,
...) are modelled already rendered by `str` (every Python value has
some `str` image).  The position signature of line 269 is
`'-'.join(str(x) for x in img)`.  `doc.extract_image(xref)` is the
collaborator `extract : Nat → Option PyStr`, returning the declared
extension on success and `none` when the `except` at line 306 fires
(the written bytes play no role in any claim and are not modelled). -/

structure ImgRef where
  xref : Nat
  rest : List PyStr
deriving DecidableEq, Repr

/-- Model of `sep.join(parts)`. -/
def pyJoin (sep : PyStr) : List PyStr → PyStr
  | [] => []
  | [x] => x
  | x :: xs => x ++ sep ++ pyJoin sep xs

/-- `position_sig = '-'.join(str(x) for x in img)` (line 269). -/
def sig (r : ImgRef) : PyStr := pyJoin ['-'] (decStr r.xref :: r.rest)

theorem sig_ne_of_xref_ne {a b : ImgRef} (hrest : a.rest = b.rest)
    (hx : a.xref ≠ b.xref) : sig a ≠ sig b := by
  intro h
  unfold sig at h
  rw [hrest] at h
  cases ht : b.rest with
  | nil =>
      rw [ht] at h
      exact hx (decStr_injective h)
  | cons y ys =>
      rw [ht] at h
      simp only [pyJoin, List.append_assoc] at h
      exact hx (decStr_injective (List.append_cancel_right h))

/-- Loop state of the `for img in image_list` loop (lines 261-307):
the set of seen signatures, the per-page counter `img_count`, the output
directory contents, and the files written so far (in order). -/
structure NativeState where
  sigs : List PyStr
  imgCount : Nat
  dir : List PyStr
  written : List PyStr
deriving DecidableEq, Repr

/-- One iteration of the loop body, lines 264-307. -/
def nativeStep (stem : PyStr) (pageNum : Nat) (extract : Nat → Option PyStr)
    (st : NativeState) (img : ImgRef) : NativeState :=
  if sig img ∈ st.sigs then st
  else
    let sigs := sig img :: st.sigs
    let n := st.imgCount + 1
    match extract img.xref with
    | none => { st with sigs := sigs, imgCount := n }
    | some ext =>
        let path := reserve st.dir (imgBase stem pageNum n ext)
        { sigs := sigs, imgCount := n, dir := path :: st.dir, written := st.written ++ [path] }

/-- The whole native attempt for one page. -/
def processNative (stem : PyStr) (pageNum : Nat) (extract : Nat → Option PyStr)
    (dir : List PyStr) (imageList : List ImgRef) : NativeState :=
  imageList.foldl (nativeStep stem pageNum extract) ⟨[], 0, dir, []⟩

theorem nativeStep_sigs_mono (stem : PyStr) (pageNum : Nat) (extract : Nat → Option PyStr)
    (st : NativeState) (img : ImgRef) {s : PyStr} (h : s ∈ st.sigs) :
    s ∈ (nativeStep stem pageNum extract st img).sigs := by
  unfold nativeStep
  by_cases hm : sig img ∈ st.sigs
  · simpa [hm]
  · cases hext : extract img.xref <;> simp [hm, hext, h]

theorem nativeStep_sig_mem (stem : PyStr) (pageNum : Nat) (extract : Nat → Option PyStr)
    (st : NativeState) (img : ImgRef) :
    sig img ∈ (nativeStep stem pageNum extract st img).sigs := by
  unfold nativeStep
  by_cases hm : sig img ∈ st.sigs
  · simp [hm]
  · cases hext : extract img.xref <;> simp [hm, hext]

theorem nativeStep_skip (stem : PyStr) (pageNum : Nat) (extract : Nat → Option PyStr)
    (st : NativeState) (img : ImgRef) (h : sig img ∈ st.sigs) :
    nativeStep stem pageNum extract st img = st := by
  unfold nativeStep
  simp [h]

theorem foldl_nativeStep_sigs_mono (stem : PyStr) (pageNum : Nat)
    (extract : Nat → Option PyStr) (l : List ImgRef) (st : NativeState) {s : PyStr}
    (h : s ∈ st.sigs) : s ∈ (l.foldl (nativeStep stem pageNum extract) st).sigs := by
  induction l generalizing st with
  | nil => exact h
  | cons a rest ih =>
      exact ih _ (nativeStep_sigs_mono stem pageNum extract st a h)

/-- The refs that survive per-page deduplication, given already-seen
signatures: first occurrence of each signature, in encounter order. -/
def uniqueRefs : List ImgRef → List PyStr → List ImgRef
  | [], _ => []
  | r :: rs, seen =>
      if sig r ∈ seen then uniqueRefs rs seen else r :: uniqueRefs rs (sig r :: seen)

/-- The number of files the native loop writes: one per deduplicated ref
whose `extract_image` call succeeds. -/
theorem foldl_nativeStep_written_count (stem : PyStr) (pageNum : Nat)
    (extract : Nat → Option PyStr) (l : List ImgRef) :
    ∀ st : NativeState,
      (l.foldl (nativeStep stem pageNum extract) st).written.length =
        st.written.length +
          ((uniqueRefs l st.sigs).filter (fun r => (extract r.xref).isSome)).length := by
  induction l with
  | nil => intro st; simp [uniqueRefs]
  | cons r rs ih =>
      intro st
      by_cases hm : sig r ∈ st.sigs
      · rw [List.foldl_cons, nativeStep_skip stem pageNum extract st r hm]
        simp [uniqueRefs, hm, ih st]
      · rw [List.foldl_cons]
        cases hext : extract r.xref with
        | none =>
            rw [show nativeStep stem pageNum extract st r =
                { st with sigs := sig r :: st.sigs, imgCount := st.imgCount + 1 } by
              unfold nativeStep
              simp [hm, hext]]
            rw [ih]
            simp [uniqueRefs, hm, hext]
        | some ext =>
            rw [show nativeStep stem pageNum extract st r =
                { sigs := sig r :: st.sigs, imgCount := st.imgCount + 1,
                  dir := reserve st.dir (imgBase stem pageNum (st.imgCount + 1) ext) :: st.dir,
                  written := st.written ++
                    [reserve st.dir (imgBase stem pageNum (st.imgCount + 1) ext)] } by
              unfold nativeStep
              simp [hm, hext]]
            rw [ih]
            simp [uniqueRefs, hm, hext]
            omega

theorem processNative_written_count (stem : PyStr) (pageNum : Nat)
    (extract : Nat → Option PyStr) (dir : List PyStr) (l : List ImgRef) :
    (processNative stem pageNum extract dir l).written.length =
      ((uniqueRefs l []).filter (fun r => (extract r.xref).isSome)).length := by
  unfold processNative
  rw [foldl_nativeStep_written_count]
  simp

/-- A second occurrence of an already-seen ref is a no-op for the whole
remaining fold. -/
theorem foldl_nativeStep_dup (stem : PyStr) (pageNum : Nat)
    (extract : Nat → Option PyStr) (r : ImgRef) (b c : List ImgRef) (st : NativeState)
    (h : sig r ∈ st.sigs) :
    (b ++ r :: c).foldl (nativeStep stem pageNum extract) st =
      (b ++ c).foldl (nativeStep stem pageNum extract) st := by
  rw [List.foldl_append, List.foldl_append, List.foldl_cons,
    nativeStep_skip stem pageNum extract _ r
      (foldl_nativeStep_sigs_mono stem pageNum extract b st h)]

/-- Removing a later duplicate of a ref (same full tuple) does not change
the native loop's result (dedup of lines 271-275). -/
theorem processNative_erase_dup (stem : PyStr) (pageNum : Nat)
    (extract : Nat → Option PyStr) (dir : List PyStr) (a b c : List ImgRef) (r : ImgRef) :
    processNative stem pageNum extract dir (a ++ (r :: b) ++ (r :: c)) =
      processNative stem pageNum extract dir (a ++ (r :: b) ++ c) := by
  unfold processNative
  simp only [List.foldl_append, List.foldl_cons]
  have hmem : sig r ∈ (b.foldl (nativeStep stem pageNum extract)
      (nativeStep stem pageNum extract
        (a.foldl (nativeStep stem pageNum extract) ⟨[], 0, dir, []⟩) r)).sigs :=
    foldl_nativeStep_sigs_mono stem pageNum extract b _
      (nativeStep_sig_mem stem pageNum extract _ r)
  rw [nativeStep_skip stem pageNum extract _ r hmem]

/-! ## Per-page state machine (lines 247-381)

Everything the page loop body consumes from collaborators for one page:
the `get_images` list, the `extract_image` results, and the contours the
OpenCV pipeline finds on the rendered page (rendered at fixed 2.0 zoom,
`alpha=False`; rendering itself is the collaborator boundary, so only
the rendered bitmap's dimensions and contours appear).  If the rendered
temp file cannot be read back, `detect_and_extract_image_regions`
returns `[]` (line 128), which lands in the same whole-page branch as
"no regions detected" — so that failure mode needs no separate flag. -/

structure PageEnv where
  imageList : List ImgRef
  extract : Nat → Option PyStr
  contours : List Contour
  rwidth : Nat
  rheight : Nat

/-- Process one page: the native attempt, then — exactly when it wrote
nothing (`extracted_any_images` is false, line 311) — the render
fallback.  Returns the files written for this page (in order) and the
resulting directory contents. -/
def processPage (stem : PyStr) (fmt : PyStr) (pageNum : Nat) (env : PageEnv)
    (dir : List PyStr) : List PyStr × List PyStr :=
  if (processNative stem pageNum env.extract dir env.imageList).written = [] then
    if detect env.rwidth env.rheight 1000 env.contours = [] then
      ([reserve (processNative stem pageNum env.extract dir env.imageList).dir
          (imgBase stem pageNum 1 fmt)],
        reserve (processNative stem pageNum env.extract dir env.imageList).dir
            (imgBase stem pageNum 1 fmt) ::
          (processNative stem pageNum env.extract dir env.imageList).dir)
    else
      saveLoop stem pageNum fmt (processNative stem pageNum env.extract dir env.imageList).dir
        1 (detect env.rwidth env.rheight 1000 env.contours).length
  else
    ((processNative stem pageNum env.extract dir env.imageList).written,
      (processNative stem pageNum env.extract dir env.imageList).dir)

/-! ## Page-selector parsing (`parse_pages`, lines 69-110)

Python's falsy test at line 80 sends both `None` and `""` to the
all-pages result.  `str.split` on a one-character separator, `int()`
(ASCII whitespace stripping, optional sign, decimal digits with single
underscores between digits), and the warning strings are modelled
directly.  The result set is a `Finset ℤ` of zero-based indices; the
`except ValueError` handlers make the function total, so the model is a
plain function and the collected warnings are its second component. -/

/-- Model of `s.split(sep)` for a one-character separator. -/
def splitChar (sep : Char) : List Char → List (List Char)
  | [] => [[]]
  | c :: cs =>
      if c = sep then [] :: splitChar sep cs
      else
        match splitChar sep cs with
        | h :: t => (c :: h) :: t
        | [] => [[c]]

theorem splitChar_cons (sep c : Char) (cs : List Char) :
    splitChar sep (c :: cs) =
      if c = sep then [] :: splitChar sep cs
      else
        match splitChar sep cs with
        | h :: t => (c :: h) :: t
        | [] => [[c]] :=
  rfl

theorem splitChar_ne_nil (sep : Char) : ∀ s, splitChar sep s ≠ [] := by
  intro s
  induction s with
  | nil => simp [splitChar]
  | cons c cs ih =>
      rw [splitChar_cons]
      by_cases h : c = sep
      · simp [h]
      · cases hr : splitChar sep cs with
        | nil => exact absurd hr ih
        | cons x t => simp [h, hr]

theorem splitChar_append (sep : Char) (a b : List Char) :
    splitChar sep (a ++ sep :: b) = splitChar sep a ++ splitChar sep b := by
  induction a with
  | nil => simp [splitChar]
  | cons c cs ih =>
      rw [List.cons_append, splitChar_cons, splitChar_cons, ih]
      by_cases h : c = sep
      · simp [h]
      · cases hr : splitChar sep cs with
        | nil => exact absurd hr (splitChar_ne_nil sep cs)
        | cons x t => simp [h, hr]

/-- ASCII whitespace stripped by Python `int()` / `str.strip`. -/
def isPyWs (c : Char) : Bool :=
  c = ' ' || c = '\t' || c = '\n' || c = '\r' || c = '\x0b' || c = '\x0c'

def pyStrip (s : PyStr) : PyStr := ((s.dropWhile isPyWs).reverse.dropWhile isPyWs).reverse

/-- Digit run after the first digit: plain digits with single
underscores allowed between digits (Python numeric-literal rule). -/
def digitsGo (acc : Nat) : List Char → Option Nat
  | [] => some acc
  | ['_'] => none
  | '_' :: c :: cs => if c.isDigit then digitsGo (10 * acc + chVal c) cs else none
  | c :: cs => if c.isDigit then digitsGo (10 * acc + chVal c) cs else none

def pyDigits? : List Char → Option Nat
  | [] => none
  | c :: cs => if c.isDigit then digitsGo (chVal c) cs else none

/-- Model of Python `int(s)` (ASCII semantics): strip whitespace,
optional single sign, nonempty digit run; `none` models `ValueError`. -/
def pyInt? (s : PyStr) : Option Int :=
  match pyStrip s with
  | '+' :: cs => (pyDigits? cs).map fun n => (n : ℤ)
  | '-' :: cs => (pyDigits? cs).map fun n => -(n : ℤ)
  | cs => (pyDigits? cs).map fun n => (n : ℤ)

def warnRange (part : PyStr) : PyStr :=
  "Warning: Invalid page range \x27".toList ++ part ++ "\x27, skipping".toList

def warnOutOfRange (part : PyStr) : PyStr :=
  "Warning: Page ".toList ++ part ++ " out of range, skipping".toList

def warnInvalidNumber (part : PyStr) : PyStr :=
  "Warning: Invalid page number \x27".toList ++ part ++ "\x27, skipping".toList

/-- `start, end = map(int, part.split('-'))`: succeeds only on exactly
two int-parsable pieces; any other shape raises `ValueError` (caught at
line 97). -/
def rangeInts? (part : PyStr) : Option (Int × Int) :=
  match splitChar '-' part with
  | [a, b] =>
      match pyInt? a, pyInt? b with
      | some s, some e => some (s, e)
      | _, _ => none
  | _ => none

/-- One token of the comma-separated selector (lines 88-108). -/
def handlePart (totalPages : Nat) (part : PyStr) : Finset ℤ × Option PyStr :=
  if '-' ∈ part then
    match rangeInts? part with
    | some se =>
        let s1 : ℤ := max 1 se.1 - 1
        let e1 : ℤ := min (totalPages : ℤ) se.2 - 1
        (Finset.Ico s1 (e1 + 1), none)
    | none => (∅, some (warnRange part))
  else
    match pyInt? part with
    | some p =>
        if 0 ≤ p - 1 ∧ p - 1 < (totalPages : ℤ) then ({p - 1}, none)
        else (∅, some (warnOutOfRange part))
    | none => (∅, some (warnInvalidNumber part))

/-- One accumulation step of the token loop. -/
def partStep (totalPages : Nat) (acc : Finset ℤ × List PyStr) (part : PyStr) :
    Finset ℤ × List PyStr :=
  let r := handlePart totalPages part
  (acc.1 ∪ r.1, acc.2 ++ r.2.toList)

/-- The token loop, accumulating the page set and warnings in order. -/
def partsResult (totalPages : Nat) (parts : List PyStr) : Finset ℤ × List PyStr :=
  parts.foldl (partStep totalPages) (∅, [])

/-- Model of `parse_pages`. -/
def parsePages (pagesString : Option PyStr) (totalPages : Nat) : Finset ℤ × List PyStr :=
  match pagesString with
  | none => (Finset.Ico (0 : ℤ) (totalPages : ℤ), [])
  | some s =>
      if s = [] then (Finset.Ico (0 : ℤ) (totalPages : ℤ), [])
      else partsResult totalPages (splitChar ',' s)

theorem handlePart_range_eq (totalPages : Nat) (part : PyStr) (se : ℤ × ℤ)
    (hd : '-' ∈ part) (hr : rangeInts? part = some se) :
    handlePart totalPages part =
      (Finset.Ico (max 1 se.1 - 1) (min (totalPages : ℤ) se.2 - 1 + 1), none) := by
  unfold handlePart
  rw [if_pos hd, hr]

theorem handlePart_range_bad (totalPages : Nat) (part : PyStr)
    (hd : '-' ∈ part) (hr : rangeInts? part = none) :
    handlePart totalPages part = (∅, some (warnRange part)) := by
  unfold handlePart
  rw [if_pos hd, hr]

theorem handlePart_single_eq (totalPages : Nat) (part : PyStr) (p : ℤ)
    (hd : '-' ∉ part) (hp : pyInt? part = some p) :
    handlePart totalPages part =
      if 0 ≤ p - 1 ∧ p - 1 < (totalPages : ℤ) then ({p - 1}, none)
      else (∅, some (warnOutOfRange part)) := by
  unfold handlePart
  rw [if_neg hd, hp]

theorem handlePart_single_bad (totalPages : Nat) (part : PyStr)
    (hd : '-' ∉ part) (hp : pyInt? part = none) :
    handlePart totalPages part = (∅, some (warnInvalidNumber part)) := by
  unfold handlePart
  rw [if_neg hd, hp]

theorem handlePart_mem_bounds (totalPages : Nat) (part : PyStr) {i : ℤ}
    (h : i ∈ (handlePart totalPages part).1) : 0 ≤ i ∧ i < (totalPages : ℤ) := by
  by_cases hd : '-' ∈ part
  · cases hr : rangeInts? part with
    | none => rw [handlePart_range_bad totalPages part hd hr] at h; simp at h
    | some se =>
        rw [handlePart_range_eq totalPages part se hd hr] at h
        simp only [Finset.mem_Ico] at h
        have h1 : (1 : ℤ) ≤ max 1 se.1 := le_max_left 1 se.1
        have h2 : min (totalPages : ℤ) se.2 ≤ (totalPages : ℤ) := min_le_left _ _
        omega
  · cases hp : pyInt? part with
    | none => rw [handlePart_single_bad totalPages part hd hp] at h; simp at h
    | some p =>
        rw [handlePart_single_eq totalPages part p hd hp] at h
        by_cases hb : 0 ≤ p - 1 ∧ p - 1 < (totalPages : ℤ)
        · rw [if_pos hb] at h
          rw [Finset.mem_singleton] at h
          omega
        · rw [if_neg hb] at h
          simp at h

theorem foldl_partStep_eq (totalPages : Nat) :
    ∀ (parts : List PyStr) (acc : Finset ℤ × List PyStr),
      parts.foldl (partStep totalPages) acc =
        (acc.1 ∪ (partsResult totalPages parts).1,
          acc.2 ++ (partsResult totalPages parts).2) := by
  intro parts
  induction parts with
  | nil =>
      intro acc
      simp [partsResult]
  | cons p ps ih =>
      intro acc
      rw [List.foldl_cons, ih (partStep totalPages acc p)]
      have hps : partsResult totalPages (p :: ps) =
          ((partStep totalPages (∅, []) p).1 ∪ (partsResult totalPages ps).1,
            (partStep totalPages (∅, []) p).2 ++ (partsResult totalPages ps).2) := by
        unfold partsResult
        rw [List.foldl_cons, ih (partStep totalPages (∅, []) p)]
        rfl
      rw [hps]
      unfold partStep
      simp [Finset.union_assoc]

theorem partsResult_append (totalPages : Nat) (p1 p2 : List PyStr) :
    partsResult totalPages (p1 ++ p2) =
      ((partsResult totalPages p1).1 ∪ (partsResult totalPages p2).1,
        (partsResult totalPages p1).2 ++ (partsResult totalPages p2).2) := by
  unfold partsResult
  rw [List.foldl_append, foldl_partStep_eq totalPages p2]
  rfl

theorem partsResult_mem_bounds (totalPages : Nat) (parts : List PyStr) {i : ℤ}
    (h : i ∈ (partsResult totalPages parts).1) : 0 ≤ i ∧ i < (totalPages : ℤ) := by
  induction parts with
  | nil => simp [partsResult] at h
  | cons p ps ih =>
      have hps : partsResult totalPages (p :: ps) =
          ((partStep totalPages (∅, []) p).1 ∪ (partsResult totalPages ps).1,
            (partStep totalPages (∅, []) p).2 ++ (partsResult totalPages ps).2) := by
        unfold partsResult
        rw [List.foldl_cons, foldl_partStep_eq totalPages ps]
        rfl
      rw [hps] at h
      rcases Finset.mem_union.mp h with h | h
      · have : i ∈ (handlePart totalPages p).1 := by
          unfold partStep at h
          simpa using h
        exact handlePart_mem_bounds totalPages p this
      · exact ih h

/-- Every index `parse_pages` returns is in `[0, totalPages)`. -/
theorem parsePages_mem_bounds (pagesString : Option PyStr) (totalPages : Nat) {i : ℤ}
    (h : i ∈ (parsePages pagesString totalPages).1) : 0 ≤ i ∧ i < (totalPages : ℤ) := by
  cases pagesString with
  | none =>
      simp only [parsePages] at h
      simpa [Finset.mem_Ico] using h
  | some s =>
      simp only [parsePages] at h
      by_cases hs : s = []
      · simp only [hs, if_true] at h
        simpa [Finset.mem_Ico] using h
      · simp only [hs, if_false] at h
        exact partsResult_mem_bounds totalPages _ h

/-! ## Per-document processing and the batch loop (lines 205-240, 383-416)

`process_pdf` wraps its entire body — including `os.makedirs` for the
output directory (lines 216-218) — in one `try` whose handlers
(lines 386-391: `FileNotFoundError`, `fitz.FileDataError`, `Exception`)
all print a message and fall off the end of the function.  `OSError`
from `os.makedirs` is an `Exception`, so it reaches the generic handler
at line 390.  The password prompts (lines 224-234) return early after
printing.  Nothing is re-raised past `process_pdf`, so the model is a
total function per document; `process_directory` (lines 394-416) calls
it for each PDF with no handler of its own. -/

inductive OpenFailure where
  | notFound
  | corruptData
  | passwordNoInput
  | passwordIncorrect
  | otherError (msg : PyStr)
deriving DecidableEq

/-- One document's interaction with the environment: the path, whether
creating the output directory fails (`OSError` text), how opening the
document fails (if it does), and the selected pages in iteration order
(page selection itself is `parsePages`; Python's set iteration order is
unspecified, so the model takes the resulting page list as given). -/
structure PdfEnv where
  path : PyStr
  stem : PyStr
  fmt : PyStr
  mkdirFailure : Option PyStr
  openFailure : Option OpenFailure
  pages : List (Nat × PageEnv)

def errorLine (path msg : PyStr) : PyStr :=
  "Error processing PDF ".toList ++ path ++ ": ".toList ++ msg

/-- Directory contents after running the page loop over the selected
pages (lines 247-381). -/
def processPdfPages (stem fmt : PyStr) (pages : List (Nat × PageEnv))
    (dir : List PyStr) : List PyStr :=
  pages.foldl (fun d pg => (processPage stem fmt pg.1 pg.2 d).2) dir

/-- Model of `process_pdf`: returns the printed report lines and the
resulting output-directory contents.  Every failure branch returns
normally — no exception escapes. -/
def processPdf (env : PdfEnv) (dir : List PyStr) : List PyStr × List PyStr :=
  match env.mkdirFailure with
  | some msg => ([errorLine env.path msg], dir)
  | none =>
      match env.openFailure with
      | some .notFound => (["Error: PDF file not found: ".toList ++ env.path], dir)
      | some .corruptData =>
          (["Error: \x27".toList ++ env.path ++
            "\x27 is corrupted or not a valid PDF file".toList], dir)
      | some .passwordNoInput =>
          (["No password provided, skipping \x27".toList ++ env.path ++ "\x27".toList], dir)
      | some .passwordIncorrect =>
          (["Incorrect password, skipping \x27".toList ++ env.path ++ "\x27".toList], dir)
      | some (.otherError msg) => ([errorLine env.path msg], dir)
      | none =>
          (["Processing: ".toList ++ env.path],
            processPdfPages env.stem env.fmt env.pages dir)

/-- Model of `process_directory`: one `process_pdf` call per PDF,
sequentially, with no exception handling of its own. -/
def processDirectory (envs : List PdfEnv) (dir : List PyStr) : List PyStr × List PyStr :=
  envs.foldl
    (fun acc e =>
      let r := processPdf e acc.2
      (acc.1 ++ r.1, r.2))
    ([], dir)

theorem processDirectory_foldl (envs : List PdfEnv) :
    ∀ (log : List PyStr) (d : List PyStr),
      envs.foldl
          (fun acc e =>
            let r := processPdf e acc.2
            (acc.1 ++ r.1, r.2)) (log, d) =
        (log ++ (processDirectory envs d).1, (processDirectory envs d).2) := by
  induction envs with
  | nil =>
      intro log d
      simp [processDirectory]
  | cons e es ih =>
      intro log d
      rw [List.foldl_cons]
      have hu : processDirectory (e :: es) d =
          ((processPdf e d).1 ++ (processDirectory es (processPdf e d).2).1,
            (processDirectory es (processPdf e d).2).2) := by
        unfold processDirectory
        rw [List.foldl_cons]
        have := ih (([] : List PyStr) ++ (processPdf e d).1) (processPdf e d).2
        simpa using this
      rw [hu]
      have := ih (log ++ (processPdf e d).1) (processPdf e d).2
      simpa [List.append_assoc] using this

/-- The batch loop always advances to the next document, whatever the
previous document's outcome. -/
theorem processDirectory_cons (e : PdfEnv) (rest : List PdfEnv) (dir : List PyStr) :
    processDirectory (e :: rest) dir =
      ((processPdf e dir).1 ++ (processDirectory rest (processPdf e dir).2).1,
        (processDirectory rest (processPdf e dir).2).2) := by
  unfold processDirectory
  rw [List.foldl_cons]
  have := processDirectory_foldl rest (([] : List PyStr) ++ (processPdf e dir).1)
    (processPdf e dir).2
  simpa using this

/-! ## Properties of `detect` -/

theorem detect_mem (width height minArea : Nat) (cnts : List Contour) {r : Region}
    (hr : r ∈ detect width height minArea cnts) :
    r.contour ∈ cnts ∧ 2 * minArea < r.contour.area2 ∧
      r = mkRegion width height r.contour ∧
      minArea ≤ r.rarea ∧ 10 * r.rarea ≤ 9 * (width * height) := by
  unfold detect at hr
  rw [List.mem_filter] at hr
  obtain ⟨hmap, hpred⟩ := hr
  rw [List.mem_map] at hmap
  obtain ⟨c, hc, hrc⟩ := hmap
  have hcontour : r.contour = c := by rw [← hrc]; rfl
  have hsorted : c ∈ cnts.filter (fun c => decide (2 * minArea < c.area2)) :=
    (List.perm_insertionSort (fun a b => b.area2 ≤ a.area2) _).mem_iff.mp hc
  rw [List.mem_filter] at hsorted
  obtain ⟨hcin, harea⟩ := hsorted
  have harea2 : 2 * minArea < c.area2 := of_decide_eq_true harea
  have hpred2 : ¬(r.rarea < minArea ∨ 9 * (width * height) < 10 * r.rarea) :=
    of_decide_eq_true hpred
  push_neg at hpred2
  exact ⟨hcontour ▸ hcin, hcontour ▸ harea2, by rw [hcontour, ← hrc], hpred2.1, hpred2.2⟩

/-- Under the geometric facts true of every OpenCV contour — its
enclosed area is strictly below its bounding-rectangle area, and its
bounding rectangle lies inside the bitmap — the expanded rectangle of a
surviving contour covers at least the bounding rectangle. -/
theorem mkRegion_rarea_ge (width height : Nat) (c : Contour)
    (hx : c.x + c.w ≤ width) (hy : c.y + c.h ≤ height) :
    c.w * c.h ≤ (mkRegion width height c).rarea := by
  unfold mkRegion Region.rarea
  simp only
  have hx2 : c.x + c.w ≤ min width (c.x + c.w + c.w * 5 / 100) := by omega
  have hy2 : c.y + c.h ≤ min height (c.y + c.h + c.h * 5 / 100) := by omega
  have hdx : c.w ≤ min width (c.x + c.w + c.w * 5 / 100) - (c.x - c.w * 5 / 100) := by omega
  have hdy : c.h ≤ min height (c.y + c.h + c.h * 5 / 100) - (c.y - c.h * 5 / 100) := by omega
  exact Nat.mul_le_mul hdx hdy

/-- The regions come out sorted by contour area, non-increasing. -/
theorem detect_sorted (width height minArea : Nat) (cnts : List Contour) :
    (detect width height minArea cnts).Pairwise
      (fun a b => b.contour.area2 ≤ a.contour.area2) := by
  unfold detect
  haveI htot : IsTotal Contour (fun a b => b.area2 ≤ a.area2) :=
    ⟨fun a b => le_total b.area2 a.area2⟩
  haveI htrans : IsTrans Contour (fun a b => b.area2 ≤ a.area2) :=
    ⟨fun _ _ _ hab hbc => le_trans hbc hab⟩
  have hs : (List.insertionSort (fun a b => b.area2 ≤ a.area2)
      (cnts.filter (fun c => decide (2 * minArea < c.area2)))).Pairwise
      (fun a b => b.area2 ≤ a.area2) :=
    List.sorted_insertionSort _ _
  have hmap : ((List.insertionSort (fun a b => b.area2 ≤ a.area2)
      (cnts.filter (fun c => decide (2 * minArea < c.area2)))).map
        (mkRegion width height)).Pairwise
      (fun a b => b.contour.area2 ≤ a.contour.area2) := by
    rw [List.pairwise_map]
    exact hs
  exact hmap.sublist (List.filter_sublist _)

theorem saveLoop_length (stem : PyStr) (pageNum : Nat) (fmt : PyStr) :
    ∀ n ord dir, (saveLoop stem pageNum fmt dir ord n).1.length = n := by
  intro n
  induction n with
  | zero => intro ord dir; rfl
  | succ m ih =>
      intro ord dir
      simp only [saveLoop, List.length_cons, ih]

theorem nativeStep_new_some (stem : PyStr) (pageNum : Nat) (extract : Nat → Option PyStr)
    (st : NativeState) (img : ImgRef) (ext : PyStr)
    (hm : sig img ∉ st.sigs) (hext : extract img.xref = some ext) :
    nativeStep stem pageNum extract st img =
      ⟨sig img :: st.sigs, st.imgCount + 1,
        reserve st.dir (imgBase stem pageNum (st.imgCount + 1) ext) :: st.dir,
        st.written ++ [reserve st.dir (imgBase stem pageNum (st.imgCount + 1) ext)]⟩ := by
  unfold nativeStep
  simp [hm, hext]

theorem nativeStep_new_none (stem : PyStr) (pageNum : Nat) (extract : Nat → Option PyStr)
    (st : NativeState) (img : ImgRef)
    (hm : sig img ∉ st.sigs) (hext : extract img.xref = none) :
    nativeStep stem pageNum extract st img =
      { st with sigs := sig img :: st.sigs, imgCount := st.imgCount + 1 } := by
  unfold nativeStep
  simp [hm, hext]

/-! ## The ten claims -/

/-- C1.  For every bitmap (modelled by its contour list satisfying the
geometric facts true of OpenCV contours: the enclosed area is strictly
below the bounding rectangle's area, and the bounding rectangle lies in
the bitmap) and every `minArea`, the detector never returns a region
whose post-margin rectangle area is ≤ `minArea` and never one whose
area exceeds 90% of the page area; each returned rectangle is the
unmodified margin-expanded rectangle of an input contour, so violating
candidates are discarded, never clipped. -/
theorem c1_region_area_bounds (width height minArea : Nat) (cnts : List Contour)
    (hgeom : ∀ c ∈ cnts, c.area2 < 2 * (c.w * c.h))
    (hbound : ∀ c ∈ cnts, c.x + c.w ≤ width ∧ c.y + c.h ≤ height) :
    ∀ r ∈ detect width height minArea cnts,
      minArea < r.rarea ∧ 10 * r.rarea ≤ 9 * (width * height) ∧
        r.contour ∈ cnts ∧ r = mkRegion width height r.contour := by
  intro r hr
  obtain ⟨hcin, harea, hform, _, hbig⟩ := detect_mem width height minArea cnts hr
  have hg := hgeom r.contour hcin
  have hb := hbound r.contour hcin
  have hwh : minArea < r.contour.w * r.contour.h := by omega
  have hge : r.contour.w * r.contour.h ≤ r.rarea := by
    rw [hform]
    have := mkRegion_rarea_ge width height r.contour hb.1 hb.2
    simpa using this
  exact ⟨by omega, hbig, hcin, hform⟩

/-- C1 witness: a concrete contour list where the theorem applies. -/
theorem c1_region_area_bounds_witness :
    1000 < (Region.mk ⟨4000, 10, 10, 50, 50⟩ 8 8 62 62).rarea ∧
      10 * (Region.mk ⟨4000, 10, 10, 50, 50⟩ 8 8 62 62).rarea ≤ 9 * (100 * 100) ∧
      (Region.mk ⟨4000, 10, 10, 50, 50⟩ 8 8 62 62).contour ∈
        [Contour.mk 4000 10 10 50 50] ∧
      (Region.mk ⟨4000, 10, 10, 50, 50⟩ 8 8 62 62) =
        mkRegion 100 100 (Region.mk ⟨4000, 10, 10, 50, 50⟩ 8 8 62 62).contour :=
  c1_region_area_bounds 100 100 1000 [Contour.mk 4000 10 10 50 50]
    (by decide) (by decide) (Region.mk ⟨4000, 10, 10, 50, 50⟩ 8 8 62 62) (by decide)

/-- C5.  The output namer returns a path that does not exist in the
directory at call time; a free base name is returned unchanged;
otherwise `_1`, `_2`, ... are inserted before the extension with the
existence check repeated after each increment: with `foo.png` existing
it returns `foo_1.png`, and with `foo.png`, `foo_1.png`, `foo_2.png`
all existing it returns `foo_3.png`. -/
theorem c5_reserve_contract :
    (∀ (dir : List PyStr) (base : PyStr), reserve dir base ∉ dir) ∧
      (∀ (dir : List PyStr) (base : PyStr), base ∉ dir → reserve dir base = base) ∧
      reserve ["foo.png".toList] "foo.png".toList = "foo_1.png".toList ∧
      reserve ["foo.png".toList, "foo_1.png".toList, "foo_2.png".toList] "foo.png".toList =
        "foo_3.png".toList :=
  ⟨reserve_not_mem, reserve_of_not_mem, by decide, by decide⟩

/-- C5 witness: the free-name clause applied at a concrete input. -/
theorem c5_reserve_contract_witness :
    "bar.png".toList ∉ (["foo.png".toList] : List PyStr) ∧
      reserve ["foo.png".toList] "bar.png".toList = "bar.png".toList :=
  ⟨by decide, c5_reserve_contract.2.1 ["foo.png".toList] "bar.png".toList (by decide)⟩

/-- C6.  The detector's output is ordered non-increasingly by the
pre-margin contour area, and this order determines the 1-based ordinal
in each saved region's filename: when the base names are free, the
region-saving loop writes exactly `image-1`, `image-2`, ... in the
detector's order. -/
theorem c6_region_order_determines_ordinals :
    (∀ width height minArea cnts,
        (detect width height minArea cnts).Pairwise
          (fun a b => b.contour.area2 ≤ a.contour.area2)) ∧
      (∀ (stem : PyStr) (pageNum : Nat) (fmt : PyStr) (dir : List PyStr) (n : Nat),
        (∀ j, j < n → imgBase stem pageNum (j + 1) fmt ∉ dir) →
        (saveLoop stem pageNum fmt dir 1 n).1 =
          (List.range n).map (fun j => imgBase stem pageNum (j + 1) fmt)) := by
  constructor
  · exact detect_sorted
  · intro stem pageNum fmt dir n hfree
    have := saveLoop_fresh stem pageNum fmt n 1 dir (by
      intro j hj
      have := hfree j hj
      have harith : 1 + j = j + 1 := by omega
      rwa [harith])
    rw [this]
    apply List.map_congr_left
    intro a _
    have harith : 1 + a = a + 1 := by omega
    rw [harith]

/-- C6 witness: two regions saved into an empty directory get ordinals
1 and 2 in order. -/
theorem c6_region_order_determines_ordinals_witness :
    (saveLoop "a".toList 1 "png".toList [] 1 2).1 =
      (List.range 2).map (fun j => imgBase "a".toList 1 (j + 1) "png".toList) :=
  c6_region_order_determines_ordinals.2 "a".toList 1 "png".toList [] 2 (by decide)

/-- C7.  Every index the page parser returns lies in `[0, totalPages)`;
a range token's start is floored at 1 and its end capped at
`totalPages` before the 0-based conversion, an empty-after-clamping
range contributes nothing, and `parse("2-5", 10) = {1,2,3,4}`. -/
theorem c7_parse_bounds_and_clamping :
    (∀ (s : Option PyStr) (n : Nat), ∀ i ∈ (parsePages s n).1, 0 ≤ i ∧ i < (n : ℤ)) ∧
      (parsePages (some "2-5".toList) 10).1 = ({1, 2, 3, 4} : Finset ℤ) ∧
      (parsePages (some "0-5".toList) 10).1 = ({0, 1, 2, 3, 4} : Finset ℤ) ∧
      (parsePages (some "7-99".toList) 10).1 = ({6, 7, 8, 9} : Finset ℤ) ∧
      (parsePages (some "8-2".toList) 10).1 = (∅ : Finset ℤ) :=
  ⟨fun s n _ h => parsePages_mem_bounds s n h, by decide, by decide, by decide, by decide⟩

/-- C7 witness: the bound applied to a concrete member. -/
theorem c7_parse_bounds_and_clamping_witness :
    (0 : ℤ) ≤ 1 ∧ (1 : ℤ) < (10 : Nat) :=
  c7_parse_bounds_and_clamping.1 (some "2-5".toList) 10 1 (by decide)

/-- C8.  A malformed token or an out-of-range single-page token is
reported as a warning and skipped while the other tokens are still
parsed; splitting at any comma processes both sides independently (so
no token aborts the rest), and the parser is a total function (the
`except ValueError` handlers keep every error local). -/
theorem c8_bad_tokens_warn_and_continue :
    (∀ (a b : PyStr) (n : Nat), a ≠ [] → b ≠ [] →
        parsePages (some (a ++ ',' :: b)) n =
          ((parsePages (some a) n).1 ∪ (parsePages (some b) n).1,
            (parsePages (some a) n).2 ++ (parsePages (some b) n).2)) ∧
      parsePages (some "3,8".toList) 5 = ({2}, [warnOutOfRange "8".toList]) ∧
      parsePages (some "1,a,3".toList) 5 = ({0, 2}, [warnInvalidNumber "a".toList]) ∧
      parsePages (some "1,2-x,3".toList) 5 = ({0, 2}, [warnRange "2-x".toList]) := by
  refine ⟨?_, by decide, by decide, by decide⟩
  intro a b n ha hb
  have hab : a ++ ',' :: b ≠ [] := by
    intro h
    exact absurd (List.append_eq_nil.mp h).2 (by simp)
  rw [show parsePages (some (a ++ ',' :: b)) n =
      partsResult n (splitChar ',' (a ++ ',' :: b)) by
    simp only [parsePages, if_neg hab]]
  rw [splitChar_append, partsResult_append]
  rw [show parsePages (some a) n = partsResult n (splitChar ',' a) by
    simp only [parsePages, if_neg ha]]
  rw [show parsePages (some b) n = partsResult n (splitChar ',' b) by
    simp only [parsePages, if_neg hb]]

/-- C8 witness: the comma-splitting clause applied at concrete tokens. -/
theorem c8_bad_tokens_warn_and_continue_witness :
    parsePages (some ("1".toList ++ ',' :: "a".toList)) 5 =
      ((parsePages (some "1".toList) 5).1 ∪ (parsePages (some "a".toList) 5).1,
        (parsePages (some "1".toList) 5).2 ++ (parsePages (some "a".toList) 5).2) :=
  c8_bad_tokens_warn_and_continue.1 "1".toList "a".toList 5 (by decide) (by decide)

/-- C3.  Two refs with an identical placement tuple on the same page
produce exactly one extracted file: a later duplicate occurrence is a
no-op for the whole loop, and the concrete page `[r, r]` with a
successful extraction writes exactly one file carrying ordinal 1. -/
theorem c3_duplicate_tuple_one_file :
    (∀ (stem : PyStr) (pageNum : Nat) (extract : Nat → Option PyStr) (dir : List PyStr)
        (a b c : List ImgRef) (r : ImgRef),
        processNative stem pageNum extract dir (a ++ (r :: b) ++ (r :: c)) =
          processNative stem pageNum extract dir (a ++ (r :: b) ++ c)) ∧
      (∀ (stem : PyStr) (pageNum : Nat) (extract : Nat → Option PyStr) (dir : List PyStr)
          (r : ImgRef) (ext : PyStr),
        extract r.xref = some ext →
        imgBase stem pageNum 1 ext ∉ dir →
        (processNative stem pageNum extract dir [r, r]).written =
          [imgBase stem pageNum 1 ext]) := by
  constructor
  · exact fun stem pageNum extract dir a b c r =>
      processNative_erase_dup stem pageNum extract dir a b c r
  · intro stem pageNum extract dir r ext hext hfree
    unfold processNative
    rw [List.foldl_cons,
      nativeStep_new_some stem pageNum extract ⟨[], 0, dir, []⟩ r ext (by simp) hext,
      List.foldl_cons, nativeStep_skip stem pageNum extract _ r (by simp), List.foldl_nil]
    simp [reserve_of_not_mem dir _ hfree]

/-- C3 witness: a concrete page whose ref list holds the same tuple
twice yields one file named with ordinal 1. -/
theorem c3_duplicate_tuple_one_file_witness :
    (processNative "d".toList 1 (fun _ => some "png".toList) []
        [ImgRef.mk 7 [], ImgRef.mk 7 []]).written =
      [imgBase "d".toList 1 1 "png".toList] :=
  c3_duplicate_tuple_one_file.2 "d".toList 1 (fun _ => some "png".toList) []
    (ImgRef.mk 7 []) "png".toList rfl (by decide)

/-- C9.  The duplicate signature is the dash-join of the whole reported
tuple, whose first element is the xref: two refs with identical
placement data but different xrefs have different signatures, so both
are extracted and two files are written. -/
theorem c9_sig_includes_xref_two_files :
    ∀ (stem : PyStr) (pageNum : Nat) (extract : Nat → Option PyStr) (dir : List PyStr)
      (r1 r2 : ImgRef) (e1 e2 : PyStr),
      r1.rest = r2.rest → r1.xref ≠ r2.xref →
      extract r1.xref = some e1 → extract r2.xref = some e2 →
      (processNative stem pageNum extract dir [r1, r2]).written.length = 2 := by
  intro stem pageNum extract dir r1 r2 e1 e2 hrest hx hx1 hx2
  have hne : sig r2 ∉ ([sig r1] : List PyStr) := by
    simp only [List.mem_singleton]
    exact fun h => (sig_ne_of_xref_ne hrest hx) h.symm
  unfold processNative
  rw [List.foldl_cons,
    nativeStep_new_some stem pageNum extract ⟨[], 0, dir, []⟩ r1 e1 (by simp) hx1,
    List.foldl_cons, nativeStep_new_some stem pageNum extract _ r2 e2 hne hx2,
    List.foldl_nil]
  simp

/-- C9 witness: identical placement data, xrefs 1 and 2, both
extractions succeeding — two files. -/
theorem c9_sig_includes_xref_two_files_witness :
    (processNative "d".toList 1 (fun _ => some "png".toList) []
        [ImgRef.mk 1 [], ImgRef.mk 2 []]).written.length = 2 :=
  c9_sig_includes_xref_two_files "d".toList 1 (fun _ => some "png".toList) []
    (ImgRef.mk 1 []) (ImgRef.mk 2 []) "png".toList "png".toList rfl (by decide) rfl rfl

/-- C10.  The per-page ordinal is consumed when a new signature is seen,
before extraction is attempted: if the first ref's extraction fails and
the second succeeds, the only file written carries ordinal 2 — written
filenames on a page can skip ordinal values. -/
theorem c10_failed_extraction_consumes_ordinal :
    ∀ (stem : PyStr) (pageNum : Nat) (extract : Nat → Option PyStr) (dir : List PyStr)
      (r1 r2 : ImgRef) (ext : PyStr),
      sig r1 ≠ sig r2 →
      extract r1.xref = none → extract r2.xref = some ext →
      imgBase stem pageNum 2 ext ∉ dir →
      (processNative stem pageNum extract dir [r1, r2]).written =
          [imgBase stem pageNum 2 ext] ∧
        (processNative stem pageNum extract dir [r1, r2]).imgCount = 2 := by
  intro stem pageNum extract dir r1 r2 ext hsig hx1 hx2 hfree
  have hne : sig r2 ∉ ([sig r1] : List PyStr) := by
    simp only [List.mem_singleton]
    exact fun h => hsig h.symm
  unfold processNative
  rw [List.foldl_cons,
    nativeStep_new_none stem pageNum extract ⟨[], 0, dir, []⟩ r1 (by simp) hx1,
    List.foldl_cons, nativeStep_new_some stem pageNum extract _ r2 ext hne hx2,
    List.foldl_nil]
  simp [reserve_of_not_mem dir _ hfree]

/-- C10 witness: extraction fails for xref 1, succeeds for xref 2; the
single written file is named with ordinal 2. -/
theorem c10_failed_extraction_consumes_ordinal_witness :
    (processNative "d".toList 1 (fun x => if x = 2 then some "png".toList else none) []
        [ImgRef.mk 1 [], ImgRef.mk 2 []]).written =
        [imgBase "d".toList 1 2 "png".toList] ∧
      (processNative "d".toList 1 (fun x => if x = 2 then some "png".toList else none) []
        [ImgRef.mk 1 [], ImgRef.mk 2 []]).imgCount = 2 :=
  c10_failed_extraction_consumes_ordinal "d".toList 1
    (fun x => if x = 2 then some "png".toList else none) []
    (ImgRef.mk 1 []) (ImgRef.mk 2 []) "png".toList (by decide) rfl rfl (by decide)

/-- C2 counterexample.  A batch of two documents whose output-directory
creation fails: `os.makedirs`'s `OSError` is caught by the generic
`except Exception` inside `process_pdf` (line 390), so the batch does
NOT terminate — the second document is still attempted and the failure
is reported twice, not exactly once. -/
theorem c2_counterexample :
    (processDirectory
        [PdfEnv.mk "a.pdf".toList "a".toList "png".toList
            (some "Permission denied".toList) none [],
          PdfEnv.mk "a.pdf".toList "a".toList "png".toList
            (some "Permission denied".toList) none []] []).1 =
        [errorLine "a.pdf".toList "Permission denied".toList,
          errorLine "a.pdf".toList "Permission denied".toList] ∧
      (processDirectory
        [PdfEnv.mk "a.pdf".toList "a".toList "png".toList
            (some "Permission denied".toList) none [],
          PdfEnv.mk "a.pdf".toList "a".toList "png".toList
            (some "Permission denied".toList) none []] []).1.count
          (errorLine "a.pdf".toList "Permission denied".toList) ≠ 1 := by
  constructor
  · decide
  · decide

/-- C2 amended.  No error kind terminates the batch at all: the batch
loop always advances to the next document, and a directory-creation
failure is caught inside `process_pdf` like any other exception and
reported exactly once for that document (with no files written). -/
theorem c2_mkdir_failure_nonfatal :
    (∀ (e : PdfEnv) (rest : List PdfEnv) (dir : List PyStr),
        processDirectory (e :: rest) dir =
          ((processPdf e dir).1 ++ (processDirectory rest (processPdf e dir).2).1,
            (processDirectory rest (processPdf e dir).2).2)) ∧
      (∀ (e : PdfEnv) (dir : List PyStr) (msg : PyStr),
        e.mkdirFailure = some msg →
        processPdf e dir = ([errorLine e.path msg], dir)) := by
  constructor
  · exact processDirectory_cons
  · intro e dir msg h
    unfold processPdf
    rw [h]

/-- C2 amended witness: a concrete document with a failing `makedirs`
is reported once and leaves the directory untouched. -/
theorem c2_mkdir_failure_nonfatal_witness :
    processPdf
        (PdfEnv.mk "a.pdf".toList "a".toList "png".toList (some "boom".toList) none []) [] =
      ([errorLine "a.pdf".toList "boom".toList], []) :=
  c2_mkdir_failure_nonfatal.2
    (PdfEnv.mk "a.pdf".toList "a".toList "png".toList (some "boom".toList) none [])
    [] "boom".toList rfl

/-- C4 counterexample.  A page with two deduplicated refs where the
second extraction fails: the native path writes 1 file, not the
claimed "count = deduplicated refs" = 2 (and the fallback does not run
because one file was written). -/
theorem c4_counterexample :
    (processPage "d".toList "png".toList 1
        (PageEnv.mk [ImgRef.mk 1 [], ImgRef.mk 2 []]
          (fun x => if x = 1 then some "png".toList else none) [] 0 0) []).1.length = 1 ∧
      (uniqueRefs [ImgRef.mk 1 [], ImgRef.mk 2 []] []).length = 2 := by
  constructor
  · decide
  · decide

/-- C4 amended.  Output files for a page come from exactly one path:
when the native loop wrote at least one file the page's result is
exactly those files, their count being the number of deduplicated refs
whose extraction succeeded; when it wrote none, the fallback's count is
the number of detected regions, or exactly 1 when none are detected. -/
theorem c4_single_extraction_path :
    ∀ (stem fmt : PyStr) (pageNum : Nat) (env : PageEnv) (dir : List PyStr),
      ((processNative stem pageNum env.extract dir env.imageList).written ≠ [] →
        processPage stem fmt pageNum env dir =
          ((processNative stem pageNum env.extract dir env.imageList).written,
            (processNative stem pageNum env.extract dir env.imageList).dir) ∧
        (processNative stem pageNum env.extract dir env.imageList).written.length =
          ((uniqueRefs env.imageList []).filter
            (fun r => (env.extract r.xref).isSome)).length) ∧
      ((processNative stem pageNum env.extract dir env.imageList).written = [] →
        (processPage stem fmt pageNum env dir).1.length =
          if detect env.rwidth env.rheight 1000 env.contours = [] then 1
          else (detect env.rwidth env.rheight 1000 env.contours).length) := by
  intro stem fmt pageNum env dir
  constructor
  · intro h
    constructor
    · unfold processPage
      rw [if_neg h]
    · exact processNative_written_count stem pageNum env.extract dir env.imageList
  · intro h
    unfold processPage
    rw [if_pos h]
    by_cases hd : detect env.rwidth env.rheight 1000 env.contours = []
    · rw [if_pos hd, if_pos hd]
      rfl
    · rw [if_neg hd, if_neg hd]
      exact saveLoop_length stem pageNum fmt _ 1 _

/-- C4 amended witness: a page with one successful and one failing ref
stays on the native path with one file; a page with nothing stays on
the fallback with one file. -/
theorem c4_single_extraction_path_witness :
    (processNative "d".toList 1
          (fun x => if x = 1 then some "png".toList else none) []
          [ImgRef.mk 1 [], ImgRef.mk 2 []]).written.length =
      ((uniqueRefs [ImgRef.mk 1 [], ImgRef.mk 2 []] []).filter
        (fun r => ((fun x => if x = 1 then some "png".toList else none) r.xref).isSome)).length :=
  ((c4_single_extraction_path "d".toList "png".toList 1
      (PageEnv.mk [ImgRef.mk 1 [], ImgRef.mk 2 []]
        (fun x => if x = 1 then some "png".toList else none) [] 0 0) []).1 (by decide)).2
